import Mathlib

/-!
Verification development for the ROI-indexing and multiresolution-pyramid
coordinate system of `fractal-tasks-core`.

Python floats are modelled as rationals (`ℚ`), Python exceptions as
`Except String`, and Python dictionaries/pydantic models as Lean structures.
Each definition is a direct shallow embedding of the corresponding Python
function, keeping the source's control flow (in particular the order in
which checks run and exceptions are raised).  The ROI-table conversion and
the ROI-index validation pass live in a module that is not part of the
sources at hand (only their callers are); those two definitions are
modelled from the spec and say so in their doc comments.
-/

namespace Fractal

/-- Python's builtin `round`: round to the nearest integer, ties to even. -/
def pyRound (q : ℚ) : ℤ :=
  if q - Rat.floor q < 1/2 then Rat.floor q
  else if 1/2 < q - Rat.floor q then Rat.floor q + 1
  else if Rat.floor q % 2 = 0 then Rat.floor q else Rat.floor q + 1

/-- The `1e-9` floor on pixel sizes used by both pixel-size extractors. -/
def pixelSizeFloor : ℚ := 1 / 1000000000

/-- A single NGFF coordinate transformation: either a `"scale"`-type or a
`"translation"`-type entry (`ScaleCoordinateTransformation` /
`TranslationCoordinateTransformation` in `lib_ngff.py`). -/
inductive CT
  | scale (s : List ℚ)
  | translation (t : List ℚ)
deriving DecidableEq, Repr

/-- `t["type"] == "scale"` on a coordinate transformation. -/
def CT.isScale : CT → Bool
  | .scale _ => true
  | .translation _ => false

/-- One item of the NGFF `axes` list (`Axis` in `lib_ngff.py`). -/
structure Axis where
  name : String
  type : Option String
deriving DecidableEq, Repr

/-- A dataset (pyramid level) of a NGFF multiscale (`Dataset` in
`lib_ngff.py`). -/
structure Dataset where
  path : String
  coordinateTransformations : List CT
deriving DecidableEq, Repr

/-- `Dataset.scale_transformation` (`lib_ngff.py`, lines 102-123): filter
the `"scale"`-type transformations, fail when there are zero or more than
one of them, and return the scale vector of the unique one otherwise. -/
def Dataset.scale_transformation (d : Dataset) : Except String (List ℚ) :=
  match d.coordinateTransformations.filter CT.isScale with
  | [] => .error "Missing scale transformation in dataset."
  | [CT.scale s] => .ok s
  | [CT.translation _] => .error "unreachable: filtered list holds a non-scale entry"
  | _ :: _ :: _ => .error "More than one scale transformation in dataset."

/-- A NGFF multiscale (`Multiscale` in `lib_ngff.py`); the
`coordinateTransformations` field is the optional multiscale-global
transformation list whose presence the pydantic validator rejects. -/
structure Multiscale where
  name : Option String
  datasets : List Dataset
  version : Option String
  axes : List Axis
  coordinateTransformations : Option (List CT)
deriving DecidableEq, Repr

/-- The pydantic validator `Multiscale._no_global_CoordinateTransformations`
(`lib_ngff.py`, lines 146-155): fail whenever a multiscale-level (global)
`coordinateTransformations` attribute is present. -/
def Multiscale.validateNoGlobalCT (m : Multiscale) : Except String Unit :=
  match m.coordinateTransformations with
  | some _ => .error "NotImplementedError: global coordinateTransformations at the multiscales level are not currently supported"
  | none => .ok ()

/-- The NGFF image metadata (`NgffImageMeta` in `lib_ngff.py`). -/
structure NgffImageMeta where
  multiscales : List Multiscale
deriving DecidableEq, Repr

/-- Run `Multiscale.validateNoGlobalCT` on each multiscale, in list order. -/
def validateMultiscaleList : List Multiscale → Except String Unit
  | [] => .ok ()
  | ms :: rest => do
      ms.validateNoGlobalCT
      validateMultiscaleList rest

/-- Pydantic construction-time validation of `NgffImageMeta`: the
`_no_global_CoordinateTransformations` validator runs on every multiscale
before any property of the object can be consulted. -/
def NgffImageMeta.validateCTs (m : NgffImageMeta) : Except String Unit :=
  validateMultiscaleList m.multiscales

/-- `NgffImageMeta.multiscale` (`lib_ngff.py`, lines 173-183): return the
single multiscale, failing when more than one is declared.  Indexing an
empty list is an `IndexError` (pydantic's `min_items=1` forbids it
upstream). -/
def NgffImageMeta.multiscale (m : NgffImageMeta) : Except String Multiscale :=
  if m.multiscales.length > 1 then
    .error "NotImplementedError: only images with one multiscale are supported"
  else
    match m.multiscales with
    | [] => .error "IndexError: multiscales is empty"
    | ms :: _ => .ok ms

/-- The per-level loop of `NgffImageMeta.pixel_sizes_zyx` (`lib_ngff.py`,
lines 213-227): for each dataset take the unique scale transformation, read
the components at the x/y/z axis positions (z defaulting to `1.0` when the
axis list has no `"z"`), and fail as soon as the minimum of the extracted
`(z, y, x)` triple is below `1e-9`. -/
def pixelSizesLoop (xi yi : ℕ) (zi : Option ℕ) : List Dataset → Except String (List (ℚ × ℚ × ℚ))
  | [] => .ok []
  | d :: rest => do
      let s ← d.scale_transformation
      let px ← match s.get? xi with
        | some v => pure v
        | none => Except.error "IndexError: scale list has no x component"
      let py ← match s.get? yi with
        | some v => pure v
        | none => Except.error "IndexError: scale list has no y component"
      let pz ← match zi with
        | some i =>
            match s.get? i with
            | some v => pure v
            | none => Except.error "IndexError: scale list has no z component"
        | none => pure (1 : ℚ)
      if min pz (min py px) < pixelSizeFloor then
        Except.error "Pixel sizes are too small"
      else do
        let tail ← pixelSizesLoop xi yi zi rest
        pure ((pz, py, px) :: tail)

/-- `NgffImageMeta.pixel_sizes_zyx` (`lib_ngff.py`, lines 197-229): locate
the x/y (mandatory) and z (optional) axes by name, then extract the pixel
sizes of every level with `pixelSizesLoop`. -/
def NgffImageMeta.pixel_sizes_zyx (m : NgffImageMeta) : Except String (List (ℚ × ℚ × ℚ)) := do
  let ms ← m.multiscale
  let axisNames := ms.axes.map Axis.name
  let xi ← match axisNames.findIdx? (fun a => a == "x") with
    | some i => pure i
    | none => Except.error "ValueError: x is not in axes"
  let yi ← match axisNames.findIdx? (fun a => a == "y") with
    | some i => pure i
    | none => Except.error "ValueError: y is not in axes"
  let zi := axisNames.findIdx? (fun a => a == "z")
  pixelSizesLoop xi yi zi ms.datasets

/-- The loop of `NgffImageMeta.coarsening_xy` (`lib_ngff.py`, lines
244-267): walk consecutive pixel-size pairs, round the X and Y ratios with
Python's `round`, fail when they disagree at one level or across levels,
and thread the `current_ratio` accumulator (initially `None`). -/
def coarseningLoop : Option ℤ → (ℚ × ℚ × ℚ) → List (ℚ × ℚ × ℚ) → Except String (Option ℤ)
  | cur, _, [] => .ok cur
  | cur, prev, p :: rest =>
      if pyRound (p.2.2 / prev.2.2) ≠ pyRound (p.2.1 / prev.2.1) then
        .error "NotImplementedError: inhomogeneous coarsening in X and Y directions is not supported"
      else
        match cur with
        | none => coarseningLoop (some (pyRound (p.2.2 / prev.2.2))) p rest
        | some c =>
            if c ≠ pyRound (p.2.2 / prev.2.2) then
              .error "NotImplementedError: inhomogeneous coarsening across levels is not supported"
            else
              coarseningLoop (some c) p rest

/-- `NgffImageMeta.coarsening_xy` (`lib_ngff.py`, lines 236-268).  The
Python function is annotated `-> int` but returns the accumulator
`current_ratio`, which is still `None` when the loop body never runs; the
return type is therefore `Option ℤ`. -/
def NgffImageMeta.coarsening_xy (m : NgffImageMeta) : Except String (Option ℤ) := do
  let ps ← m.pixel_sizes_zyx
  match ps with
  | [] => .ok none
  | p :: rest => coarseningLoop none p rest

/-- `pixel-size extraction pipeline`: pydantic construction-time validation
followed by the `pixel_sizes_zyx` property, in the order the Python code
runs them (`load_NgffImageMeta` validates before any property access). -/
def pixelSizesPipeline (m : NgffImageMeta) : Except String (List (ℚ × ℚ × ℚ)) := do
  m.validateCTs
  m.pixel_sizes_zyx

/-- `coarsening computation pipeline`: pydantic construction-time validation
followed by the `coarsening_xy` property. -/
def coarseningPipeline (m : NgffImageMeta) : Except String (Option ℤ) := do
  m.validateCTs
  m.coarsening_xy

/-- A raw dataset dictionary as consumed by `rescale_datasets`
(`lib_zattrs_utils.py`): the `coordinateTransformations` entry plus all the
other key/value pairs (e.g. `path`), which the function copies verbatim. -/
structure DsDict where
  fields : List (String × String)
  coordinateTransformations : List CT
deriving DecidableEq, Repr

/-- The scale branch of `rescale_datasets` (`lib_zattrs_utils.py`, lines
113-123): a `"scale"`-type transformation is rebuilt as the three-element
list `[s[0], s[1] * prefactor, s[2] * prefactor]` (an out-of-range access is
an `IndexError`; components beyond index 2 are dropped); any other
transformation is passed through unchanged. -/
def rescaleCT (prefactor : ℚ) : CT → Except String CT
  | .scale s => do
      let s0 ← match s.get? 0 with
        | some v => pure v
        | none => Except.error "IndexError: scale list has no component 0"
      let s1 ← match s.get? 1 with
        | some v => pure v
        | none => Except.error "IndexError: scale list has no component 1"
      let s2 ← match s.get? 2 with
        | some v => pure v
        | none => Except.error "IndexError: scale list has no component 2"
      pure (.scale [s0, s1 * prefactor, s2 * prefactor])
  | .translation t => pure (.translation t)

/-- The inner transformation loop of `rescale_datasets`. -/
def rescaleCTList (prefactor : ℚ) : List CT → Except String (List CT)
  | [] => .ok []
  | t :: ts => do
      let t2 ← rescaleCT prefactor t
      let ts2 ← rescaleCTList prefactor ts
      pure (t2 :: ts2)

/-- `rescale_datasets` (`lib_zattrs_utils.py`, lines 81-127): for each
dataset copy every non-`coordinateTransformations` field unchanged and
rewrite the transformation list with prefactor
`coarsening_xy ** reference_level`. -/
def rescale_datasets (datasets : List DsDict) (coarsening_xy : ℤ) (reference_level : ℕ) : Except String (List DsDict) :=
  match datasets with
  | [] => .ok []
  | ds :: rest => do
      let ts ← rescaleCTList ((coarsening_xy : ℚ) ^ reference_level) ds.coordinateTransformations
      let tail ← rescale_datasets rest coarsening_xy reference_level
      pure (⟨ds.fields, ts⟩ :: tail)

/-- A raw multiscale entry of a `.zattrs` file as read by
`extract_zyx_pixel_sizes` (`lib_zattrs_utils.py`): whether the dictionary
carries a (global) `coordinateTransformations` key, and its datasets. -/
structure RawMultiscale where
  hasGlobalCT : Bool
  datasets : List DsDict
deriving DecidableEq, Repr

/-- The parsed contents of a `.zattrs` file. -/
structure Zattrs where
  multiscales : List RawMultiscale
deriving DecidableEq, Repr

/-- Python's `min` over a list (`ValueError` on an empty sequence). -/
def listMin : List ℚ → Except String ℚ
  | [] => .error "ValueError: min of an empty sequence"
  | x :: xs => .ok (xs.foldl min x)

/-- The transformation loop of `extract_zyx_pixel_sizes`
(`lib_zattrs_utils.py`, lines 59-72): return the scale list of the first
`"scale"`-type transformation, failing when the minimum of its components
is below `1e-9`, and failing when no scale transformation exists. -/
def firstScaleSearch : List CT → Except String (List ℚ)
  | [] => .error "ERROR: no scale transformation found for this level"
  | CT.scale s :: _ => do
      let m ← listMin s
      if m < pixelSizeFloor then
        Except.error "ERROR: pixel sizes are too small"
      else
        pure s
  | CT.translation _ :: rest => firstScaleSearch rest

/-- `extract_zyx_pixel_sizes` (`lib_zattrs_utils.py`, lines 22-78): reject
more than one multiscale, reject a datasets-global `coordinateTransformations`
key, then search the requested level's transformations for a scale. -/
def extract_zyx_pixel_sizes (z : Zattrs) (level : ℕ) : Except String (List ℚ) :=
  if z.multiscales.length > 1 then
    .error "ERROR: there are multiple multiscales"
  else
    match z.multiscales.get? 0 with
    | none => .error "IndexError: multiscales is empty"
    | some m0 =>
        if m0.hasGlobalCT then
          .error "NotImplementedError: global coordinateTransformations at the multiscales level are not currently supported"
        else
          match m0.datasets.get? level with
          | none => .error "IndexError: no dataset at this level"
          | some ds => firstScaleSearch ds.coordinateTransformations

/-- One row of a ROI table: origin and extent of a box in physical units,
in the full-resolution coordinate frame. -/
structure ROIRow where
  x_micrometer : ℚ
  y_micrometer : ℚ
  z_micrometer : ℚ
  len_x_micrometer : ℚ
  len_y_micrometer : ℚ
  len_z_micrometer : ℚ
deriving DecidableEq, Repr

/-- Integer array-slice bounds derived from a `ROIRow` at a pyramid level
(end-exclusive). -/
structure ROIIndices where
  start_z : ℤ
  end_z : ℤ
  start_y : ℤ
  end_y : ℤ
  start_x : ℤ
  end_x : ℤ
deriving DecidableEq, Repr

/-- Rescale a full-resolution pixel index to a pyramid level: divide by
`coarsening_xy ** level` and round.  Used for the X and Y axes only. -/
def levelIndex (c : ℤ) (level : ℕ) (full : ℤ) : ℤ :=
  pyRound ((full : ℚ) / (c : ℚ) ^ level)

/-- Modelled from the spec: the per-row body of
`convert_ROI_table_to_indices` (module `fractal_tasks_core.roi`, not among
the sources at hand; only its callers are).  Following the spec's
algorithm: subtract the origin, convert to full-resolution pixel indices by
dividing by the full-resolution pixel size and rounding, then divide the X
and Y indices (never Z) by `coarsening_xy ** level` and round again; the
deterministic rounding rule chosen here is Python's `round`. -/
def convertROIRowToIndices (row : ROIRow) (level : ℕ) (c : ℤ)
    (pxz pxy pxx : ℚ) (ox oy oz : ℚ) : ROIIndices :=
  let sfz := pyRound ((row.z_micrometer - oz) / pxz)
  let efz := pyRound ((row.z_micrometer - oz + row.len_z_micrometer) / pxz)
  let sfy := pyRound ((row.y_micrometer - oy) / pxy)
  let efy := pyRound ((row.y_micrometer - oy + row.len_y_micrometer) / pxy)
  let sfx := pyRound ((row.x_micrometer - ox) / pxx)
  let efx := pyRound ((row.x_micrometer - ox + row.len_x_micrometer) / pxx)
  { start_z := sfz
    end_z := efz
    start_y := levelIndex c level sfy
    end_y := levelIndex c level efy
    start_x := levelIndex c level sfx
    end_x := levelIndex c level efx }

/-- Modelled from the spec: `convert_ROI_table_to_indices` (module
`fractal_tasks_core.roi`, not among the sources at hand) — one `ROIIndices`
per input row, input order preserved. -/
def convert_ROI_table_to_indices (rows : List ROIRow) (level : ℕ) (c : ℤ)
    (ps : ℚ × ℚ × ℚ) (origin : ℚ × ℚ × ℚ) : List ROIIndices :=
  rows.map (fun r => convertROIRowToIndices r level c ps.1 ps.2.1 ps.2.2 origin.1 origin.2.1 origin.2.2)

/-- `end > start` on every axis of one index tuple. -/
def ROIIndices.valid (r : ROIIndices) : Bool :=
  decide (r.start_z < r.end_z) && decide (r.start_y < r.end_y) && decide (r.start_x < r.end_x)

/-- Modelled from the spec: `check_valid_ROI_indices` (module
`fractal_tasks_core.roi`, not among the sources at hand) — the validation
pass that raises when a computed tuple has `end <= start` on some axis,
and never clamps. -/
def check_valid_ROI_indices (l : List ROIIndices) : Except String Unit :=
  if l.all ROIIndices.valid then
    .ok ()
  else
    .error "InvalidROIError: a ROI has end not larger than start on some axis"

/-- Modelled from the spec and the wrapper call sites
(`napari_workflows_wrapper.py`, lines 207-213): the ROI phase computes the
index list, runs `check_valid_ROI_indices` on it, and only afterwards
exposes the regions that array reads/writes will use — a validation error
therefore precedes every region access. -/
def roiPhase (rows : List ROIRow) (level : ℕ) (c : ℤ) (ps : ℚ × ℚ × ℚ) : Except String (List ROIIndices) := do
  let listIndices := convert_ROI_table_to_indices rows level c ps (0, 0, 0)
  check_valid_ROI_indices listIndices
  pure listIndices

/-- Every consecutive pair of `(z, y, x)` pixel-size triples in
`prev :: rest` has both its rounded X ratio and its rounded Y ratio equal
to `k`.  This is the loop invariant of `coarsening_xy`. -/
def pairsOK (k : ℤ) : (ℚ × ℚ × ℚ) → List (ℚ × ℚ × ℚ) → Bool
  | _, [] => true
  | prev, p :: rest =>
      (pyRound (p.2.2 / prev.2.2) == k) && (pyRound (p.2.1 / prev.2.1) == k) && pairsOK k p rest

/-- Every `"scale"`-type transformation in the dataset list has a scale
vector of exactly three components (the ZYX layout `rescale_datasets`
assumes). -/
def allScalesLen3 (datasets : List DsDict) : Bool :=
  datasets.all fun d => d.coordinateTransformations.all fun t =>
    match t with
    | CT.scale s => s.length == 3
    | CT.translation _ => true

/-- A valid single-level (one-dataset) ZYX image, exercising the case where
the `coarsening_xy` loop body never runs. -/
def mC10 : NgffImageMeta :=
  ⟨[⟨none, [⟨"0", [CT.scale [1, 1, 1]]⟩], none,
     [⟨"z", some "space"⟩, ⟨"y", some "space"⟩, ⟨"x", some "space"⟩], none⟩]⟩

/-- A valid two-level ZYX image with a homogeneous coarsening factor 2. -/
def mC3 : NgffImageMeta :=
  ⟨[⟨none,
     [⟨"0", [CT.scale [1, 1/2, 1/2]]⟩, ⟨"1", [CT.scale [1, 1, 1]]⟩],
     none,
     [⟨"z", some "space"⟩, ⟨"y", some "space"⟩, ⟨"x", some "space"⟩],
     none⟩]⟩

/-- A valid CZYX image whose channel-axis scale component `1e-12` is far
below the `1e-9` floor while the Z/Y/X components are all `1`. -/
def mC7 : NgffImageMeta :=
  ⟨[⟨none,
     [⟨"0", [CT.scale [1/1000000000000, 1, 1, 1]]⟩],
     none,
     [⟨"c", some "channel"⟩, ⟨"z", some "space"⟩, ⟨"y", some "space"⟩, ⟨"x", some "space"⟩],
     none⟩]⟩

/-! ### General helper lemmas -/

theorem exceptBind_ok {α β ε : Type} (a : α) (f : α → Except ε β) :
    (Except.ok a >>= f) = f a := rfl

theorem exceptBind_err {α β ε : Type} (e : ε) (f : α → Except ε β) :
    ((Except.error e : Except ε α) >>= f) = Except.error e := rfl

theorem exceptPure {α ε : Type} (a : α) : (pure a : Except ε α) = Except.ok a := rfl

theorem ratFloor_eq_floor (q : ℚ) : Rat.floor q = ⌊q⌋ := by
  rw [Rat.floor_def, Rat.floor_def']

theorem pyRound_sub_abs_le (q : ℚ) : |((pyRound q : ℤ) : ℚ) - q| ≤ 1/2 := by
  have h0 : ((⌊q⌋ : ℤ) : ℚ) ≤ q := Int.floor_le q
  have h1 : q < ((⌊q⌋ : ℤ) : ℚ) + 1 := Int.lt_floor_add_one q
  unfold pyRound
  rw [ratFloor_eq_floor]
  split_ifs with ha hb hc
  · rw [abs_le]; constructor <;> linarith
  · rw [abs_le]; constructor <;> push_cast <;> linarith
  · rw [abs_le]; constructor <;> linarith
  · rw [abs_le]; constructor <;> push_cast <;> linarith

theorem abs_four (w x y z : ℚ) : |w - x - y + z| ≤ |w| + |x| + |y| + |z| := by
  calc |w - x - y + z| ≤ |w - x - y| + |z| := abs_add _ _
    _ ≤ (|w - x| + |y|) + |z| := by have := abs_sub (w - x) y; linarith
    _ ≤ ((|w| + |x|) + |y|) + |z| := by have := abs_sub w x; linarith
    _ = |w| + |x| + |y| + |z| := by ring

theorem scaled_extent_bound (c : ℤ) (L : ℕ) (s e : ℤ) (hc : 1 ≤ c) :
    |c * (levelIndex c (L+1) e - levelIndex c (L+1) s) - (levelIndex c L e - levelIndex c L s)| ≤ c + 1 := by
  have hc0 : (0 : ℚ) < (c : ℚ) := by exact_mod_cast lt_of_lt_of_le Int.zero_lt_one hc
  have key : ∀ x : ℚ, (c : ℚ) * (x / (c : ℚ) ^ (L+1)) = x / (c : ℚ) ^ L := by
    intro x
    rw [pow_succ]
    field_simp
    ring
  have he1 := pyRound_sub_abs_le ((e : ℚ) / (c : ℚ) ^ (L+1))
  have hs1 := pyRound_sub_abs_le ((s : ℚ) / (c : ℚ) ^ (L+1))
  have he0 := pyRound_sub_abs_le ((e : ℚ) / (c : ℚ) ^ L)
  have hs0 := pyRound_sub_abs_le ((s : ℚ) / (c : ℚ) ^ L)
  set Be : ℚ := ((levelIndex c (L+1) e : ℤ) : ℚ) with hBe
  set Bs : ℚ := ((levelIndex c (L+1) s : ℤ) : ℚ) with hBs
  set Ae : ℚ := ((levelIndex c L e : ℤ) : ℚ) with hAe
  set As : ℚ := ((levelIndex c L s : ℤ) : ℚ) with hAs
  have he1b : |Be - (e : ℚ) / (c : ℚ) ^ (L+1)| ≤ 1/2 := he1
  have hs1b : |Bs - (s : ℚ) / (c : ℚ) ^ (L+1)| ≤ 1/2 := hs1
  have he0b : |Ae - (e : ℚ) / (c : ℚ) ^ L| ≤ 1/2 := he0
  have hs0b : |As - (s : ℚ) / (c : ℚ) ^ L| ≤ 1/2 := hs0
  have expand : (c : ℚ) * (Be - Bs) - (Ae - As)
      = (c : ℚ) * (Be - (e : ℚ) / (c : ℚ) ^ (L+1))
        - ((c : ℚ) * (Bs - (s : ℚ) / (c : ℚ) ^ (L+1)))
        - (Ae - (e : ℚ) / (c : ℚ) ^ L)
        + (As - (s : ℚ) / (c : ℚ) ^ L) := by
    linear_combination key (e : ℚ) - key (s : ℚ)
  have habs : |(c : ℚ) * (Be - Bs) - (Ae - As)| ≤ (c : ℚ) + 1 := by
    rw [expand]
    have t1 := abs_four ((c : ℚ) * (Be - (e : ℚ) / (c : ℚ) ^ (L+1)))
      ((c : ℚ) * (Bs - (s : ℚ) / (c : ℚ) ^ (L+1)))
      (Ae - (e : ℚ) / (c : ℚ) ^ L) (As - (s : ℚ) / (c : ℚ) ^ L)
    have m1 : |(c : ℚ) * (Be - (e : ℚ) / (c : ℚ) ^ (L+1))| ≤ (c : ℚ) * (1/2) := by
      rw [abs_mul, abs_of_pos hc0]
      exact mul_le_mul_of_nonneg_left he1b (le_of_lt hc0)
    have m2 : |(c : ℚ) * (Bs - (s : ℚ) / (c : ℚ) ^ (L+1))| ≤ (c : ℚ) * (1/2) := by
      rw [abs_mul, abs_of_pos hc0]
      exact mul_le_mul_of_nonneg_left hs1b (le_of_lt hc0)
    linarith
  have hcast : |((c * (levelIndex c (L+1) e - levelIndex c (L+1) s) - (levelIndex c L e - levelIndex c L s) : ℤ) : ℚ)| ≤ ((c + 1 : ℤ) : ℚ) := by
    push_cast
    convert habs using 2
  exact_mod_cast hcast


/-! ### Lemmas about the embedded operations -/

theorem rescaleCT_one (t : CT)
    (h : (match t with | CT.scale s => s.length == 3 | CT.translation _ => true) = true) :
    rescaleCT 1 t = .ok t := by
  cases t with
  | translation v => rfl
  | scale s =>
      simp only [beq_iff_eq] at h
      obtain ⟨a, b, c, rfl⟩ := List.length_eq_three.mp h
      simp [rescaleCT, exceptBind_ok, exceptPure]

theorem rescaleCTList_one (ts : List CT)
    (h : (ts.all fun t => match t with | CT.scale s => s.length == 3 | CT.translation _ => true) = true) :
    rescaleCTList 1 ts = .ok ts := by
  induction ts with
  | nil => rfl
  | cons t ts ih =>
      rw [List.all_cons, Bool.and_eq_true] at h
      simp [rescaleCTList, rescaleCT_one t h.1, ih h.2, exceptBind_ok, exceptPure]

theorem rescaleCT_compose (f g : ℚ) (t : CT) :
    (rescaleCT f t >>= rescaleCT g) = rescaleCT (f * g) t := by
  cases t with
  | translation v => rfl
  | scale s =>
      match s with
      | [] => rfl
      | [a] => rfl
      | [a, b] => rfl
      | a :: b :: c :: s3 =>
          simp [rescaleCT, exceptBind_ok, exceptPure, mul_assoc]

theorem rescaleCT_ok_shape (f : ℚ) (t t2 : CT) (h : rescaleCT f t = .ok t2) (g : ℚ) :
    ∃ t3, rescaleCT g t2 = .ok t3 := by
  cases t with
  | translation v =>
      have : t2 = CT.translation v := by
        simpa [rescaleCT, exceptPure] using h.symm
      exact ⟨CT.translation v, by rw [this]; rfl⟩
  | scale s =>
      match s with
      | [] => simp [rescaleCT, exceptBind_err] at h
      | [a] => simp [rescaleCT, exceptBind_err] at h
      | [a, b] => simp [rescaleCT, exceptBind_err] at h
      | a :: b :: c :: s3 =>
          have : t2 = CT.scale [a, b * f, c * f] := by
            simpa [rescaleCT, exceptBind_ok, exceptPure] using h.symm
          exact ⟨CT.scale [a, b * f * g, c * f * g], by rw [this]; simp [rescaleCT, exceptBind_ok, exceptPure]⟩

theorem rescaleCTList_compose (f g : ℚ) (ts : List CT) :
    (rescaleCTList f ts >>= rescaleCTList g) = rescaleCTList (f * g) ts := by
  induction ts with
  | nil => rfl
  | cons t ts ih =>
      cases ht : rescaleCT f t with
      | error e =>
          have hfg : rescaleCT (f * g) t = .error e := by
            rw [← rescaleCT_compose, ht]; rfl
          simp [rescaleCTList, ht, hfg, exceptBind_err]
      | ok t2 =>
          obtain ⟨t3, hg⟩ := rescaleCT_ok_shape f t t2 ht g
          have hfg : rescaleCT (f * g) t = .ok t3 := by
            rw [← rescaleCT_compose, ht, exceptBind_ok, hg]
          cases hts : rescaleCTList f ts with
          | error e2 =>
              have h2 : rescaleCTList (f * g) ts = .error e2 := by
                rw [← ih, hts]; rfl
              simp [rescaleCTList, ht, hts, hfg, h2, exceptBind_ok, exceptBind_err]
          | ok ts2 =>
              have h2 : rescaleCTList (f * g) ts = rescaleCTList g ts2 := by
                rw [← ih, hts]; rfl
              simp [rescaleCTList, ht, hts, hfg, hg, h2, exceptBind_ok, exceptBind_err, exceptPure]

theorem rescaleCTList_ok_shape (f : ℚ) (ts ts2 : List CT) (h : rescaleCTList f ts = .ok ts2) (g : ℚ) :
    ∃ ts3, rescaleCTList g ts2 = .ok ts3 := by
  induction ts generalizing ts2 with
  | nil =>
      have : ts2 = [] := by simpa [rescaleCTList] using h.symm
      exact ⟨[], by rw [this]; rfl⟩
  | cons t tr ih =>
      cases ht : rescaleCT f t with
      | error e => rw [rescaleCTList, ht, exceptBind_err] at h; exact absurd h (by simp)
      | ok t2 =>
          cases htr : rescaleCTList f tr with
          | error e2 =>
              rw [rescaleCTList, ht, exceptBind_ok, htr, exceptBind_err] at h
              exact absurd h (by simp)
          | ok tr2 =>
              rw [rescaleCTList, ht, exceptBind_ok, htr, exceptBind_ok, exceptPure] at h
              obtain rfl : t2 :: tr2 = ts2 := by simpa using h
              obtain ⟨t3, hg⟩ := rescaleCT_ok_shape f t t2 ht g
              obtain ⟨tr3, hgr⟩ := ih tr2 htr
              exact ⟨t3 :: tr3, by rw [rescaleCTList, hg, exceptBind_ok, hgr, exceptBind_ok, exceptPure]⟩

/-- C9 amended, part A: composition law -/
theorem rescale_datasets_compose (ds : List DsDict) (c : ℤ) (L : ℕ) :
    (rescale_datasets ds c L >>= fun l => rescale_datasets l c L) = rescale_datasets ds c (2 * L) := by
  have hpow : ((c : ℚ) ^ L) * ((c : ℚ) ^ L) = (c : ℚ) ^ (2 * L) := by
    rw [two_mul, pow_add]
  induction ds with
  | nil => rfl
  | cons d rest ih =>
      cases hct : rescaleCTList ((c : ℚ) ^ L) d.coordinateTransformations with
      | error e =>
          have h2 : rescaleCTList ((c : ℚ) ^ (2 * L)) d.coordinateTransformations = .error e := by
            rw [← hpow, ← rescaleCTList_compose, hct]; rfl
          simp [rescale_datasets, hct, h2, exceptBind_err]
      | ok ts2 =>
          obtain ⟨ts3, hg⟩ := rescaleCTList_ok_shape _ _ _ hct ((c : ℚ) ^ L)
          have h2 : rescaleCTList ((c : ℚ) ^ (2 * L)) d.coordinateTransformations = .ok ts3 := by
            rw [← hpow, ← rescaleCTList_compose, hct, exceptBind_ok, hg]
          cases hrest : rescale_datasets rest c L with
          | error e2 =>
              have h3 : rescale_datasets rest c (2 * L) = .error e2 := by
                rw [← ih, hrest]; rfl
              simp [rescale_datasets, hct, hrest, h2, h3, exceptBind_ok, exceptBind_err, exceptPure, hg]
          | ok tail1 =>
              have h3 : rescale_datasets rest c (2 * L) = rescale_datasets tail1 c L := by
                rw [← ih, hrest]; rfl
              simp only [rescale_datasets, hct, hrest, h2, h3, exceptBind_ok, exceptBind_err, exceptPure]
              cases h4 : rescale_datasets tail1 c L with
              | error e3 => simp [rescale_datasets, hg, h4, exceptBind_ok, exceptBind_err]
              | ok tail2 => simp [rescale_datasets, hg, h4, exceptBind_ok, exceptPure]

theorem rescale_datasets_cons_ok (d : DsDict) (rest : List DsDict) (c : ℤ) (L : ℕ) (ys : List DsDict)
    (h : rescale_datasets (d :: rest) c L = .ok ys) :
    ∃ ts2 tail, rescaleCTList ((c : ℚ) ^ L) d.coordinateTransformations = .ok ts2
      ∧ rescale_datasets rest c L = .ok tail
      ∧ ys = ⟨d.fields, ts2⟩ :: tail := by
  cases hct : rescaleCTList ((c : ℚ) ^ L) d.coordinateTransformations with
  | error e => rw [rescale_datasets, hct, exceptBind_err] at h; exact absurd h (by simp)
  | ok ts2 =>
      cases hrest : rescale_datasets rest c L with
      | error e2 =>
          rw [rescale_datasets, hct, exceptBind_ok, hrest, exceptBind_err] at h
          exact absurd h (by simp)
      | ok tail =>
          rw [rescale_datasets, hct, exceptBind_ok, hrest, exceptBind_ok, exceptPure] at h
          exact ⟨ts2, tail, rfl, rfl, by simpa using h.symm⟩

theorem rescaleCTList_cons_ok (f : ℚ) (t : CT) (ts : List CT) (r : List CT)
    (h : rescaleCTList f (t :: ts) = .ok r) :
    ∃ t2 ts2, rescaleCT f t = .ok t2 ∧ rescaleCTList f ts = .ok ts2 ∧ r = t2 :: ts2 := by
  cases ht : rescaleCT f t with
  | error e => rw [rescaleCTList, ht, exceptBind_err] at h; exact absurd h (by simp)
  | ok t2 =>
      cases hts : rescaleCTList f ts with
      | error e2 =>
          rw [rescaleCTList, ht, exceptBind_ok, hts, exceptBind_err] at h
          exact absurd h (by simp)
      | ok ts2 =>
          rw [rescaleCTList, ht, exceptBind_ok, hts, exceptBind_ok, exceptPure] at h
          exact ⟨t2, ts2, rfl, rfl, by simpa using h.symm⟩

theorem rescaleCT_full_scale (f : ℚ) (a b c : ℚ) (s3 : List ℚ) :
    rescaleCT f (CT.scale (a :: b :: c :: s3)) = .ok (CT.scale [a, b * f, c * f]) := by
  simp [rescaleCT, exceptBind_ok, exceptPure]

/-- C9 amended, part B: strict difference -/
theorem rescale_datasets_twice_differs (d : DsDict) (rest : List DsDict) (c : ℤ) (L : ℕ)
    (a b c2 : ℚ) (s3 : List ℚ) (ts : List CT) (ys : List DsDict)
    (hcts : d.coordinateTransformations = CT.scale (a :: b :: c2 :: s3) :: ts)
    (hok : rescale_datasets (d :: rest) c L = .ok ys)
    (hb : b * (c : ℚ) ^ (2 * L) ≠ b * (c : ℚ) ^ L) :
    (rescale_datasets (d :: rest) c L >>= fun l => rescale_datasets l c L) ≠ .ok ys := by
  rw [rescale_datasets_compose]
  intro h2
  obtain ⟨ts2, tail, hct, hrest, hys⟩ := rescale_datasets_cons_ok d rest c L ys hok
  obtain ⟨ts2b, tailb, hctb, hrestb, hysb⟩ := rescale_datasets_cons_ok d rest c (2 * L) ys h2
  rw [hcts] at hct hctb
  obtain ⟨t2, tr2, ht2, _, hr2⟩ := rescaleCTList_cons_ok _ _ _ _ hct
  obtain ⟨t2b, tr2b, ht2b, _, hr2b⟩ := rescaleCTList_cons_ok _ _ _ _ hctb
  rw [rescaleCT_full_scale] at ht2 ht2b
  have ht2e : t2 = CT.scale [a, b * (c : ℚ) ^ L, c2 * (c : ℚ) ^ L] := by
    simpa using ht2.symm
  have ht2be : t2b = CT.scale [a, b * (c : ℚ) ^ (2 * L), c2 * (c : ℚ) ^ (2 * L)] := by
    simpa using ht2b.symm
  have hcc : (⟨d.fields, ts2⟩ : DsDict) :: tail = ⟨d.fields, ts2b⟩ :: tailb := by
    rw [← hys, ← hysb]
  injection hcc with h1 hTail
  injection h1 with hF hC
  rw [hr2, hr2b] at hC
  injection hC with hA hB
  rw [ht2e, ht2be] at hA
  simp only [CT.scale.injEq, List.cons.injEq] at hA
  exact hb (hA.2.1).symm

theorem coarseningLoop_some_ok (k : ℤ) (rest : List (ℚ × ℚ × ℚ)) :
    ∀ (prev : ℚ × ℚ × ℚ) (v : Option ℤ),
      coarseningLoop (some k) prev rest = .ok v ↔ (pairsOK k prev rest = true ∧ v = some k) := by
  induction rest with
  | nil =>
      intro prev v
      simp [coarseningLoop, pairsOK, eq_comm]
  | cons p rest ih =>
      intro prev v
      by_cases hxy : pyRound (p.2.2 / prev.2.2) = pyRound (p.2.1 / prev.2.1)
      · by_cases hk : k = pyRound (p.2.2 / prev.2.2)
        · subst hk
          rw [hxy] at ih
          simp only [hxy] at ih ⊢
          simp [coarseningLoop, pairsOK, ih]
          rw [if_pos hxy, if_pos hxy.symm]
          simp [ih, hxy]
        · have hk2 : pyRound (p.2.2 / prev.2.2) ≠ k := fun h => hk h.symm
          have hk3 : ¬k = pyRound (p.2.1 / prev.2.1) := hxy ▸ hk
          have hloop : coarseningLoop (some k) prev (p :: rest) = .error "NotImplementedError: inhomogeneous coarsening across levels is not supported" := by
            simp [coarseningLoop, hxy, hk, hk3]
          rw [hloop, pairsOK]
          constructor
          · intro h; exact absurd h (by simp)
          · rintro ⟨hpk, -⟩
            rw [Bool.and_eq_true, Bool.and_eq_true] at hpk
            exact absurd (beq_iff_eq.mp hpk.1.1) hk2
      · have hloop : coarseningLoop (some k) prev (p :: rest) = .error "NotImplementedError: inhomogeneous coarsening in X and Y directions is not supported" := by
          simp [coarseningLoop, hxy]
        rw [hloop, pairsOK]
        constructor
        · intro h; exact absurd h (by simp)
        · rintro ⟨hpk, -⟩
          rw [Bool.and_eq_true, Bool.and_eq_true] at hpk
          exact absurd ((beq_iff_eq.mp hpk.1.1).trans (beq_iff_eq.mp hpk.1.2).symm) hxy

theorem validateMultiscaleList_error (l : List Multiscale)
    (h : ∃ ms ∈ l, ms.coordinateTransformations.isSome = true) :
    validateMultiscaleList l
      = .error "NotImplementedError: global coordinateTransformations at the multiscales level are not currently supported" := by
  induction l with
  | nil => obtain ⟨ms, hm, -⟩ := h; simp at hm
  | cons a l ih =>
      obtain ⟨ms, hm, hsome⟩ := h
      cases ha : a.coordinateTransformations with
      | some cts => rw [validateMultiscaleList, Multiscale.validateNoGlobalCT, ha, exceptBind_err]
      | none =>
          rw [validateMultiscaleList, Multiscale.validateNoGlobalCT, ha, exceptBind_ok]
          rcases List.mem_cons.mp hm with rfl | hmem
          · rw [ha] at hsome; simp at hsome
          · exact ih ⟨ms, hmem, hsome⟩

theorem validateMultiscaleList_ok (l : List Multiscale)
    (h : ∀ ms ∈ l, ms.coordinateTransformations = none) :
    validateMultiscaleList l = .ok () := by
  induction l with
  | nil => rfl
  | cons a l ih =>
      rw [validateMultiscaleList, Multiscale.validateNoGlobalCT, h a (by simp), exceptBind_ok]
      exact ih fun ms hm => h ms (List.mem_cons_of_mem a hm)

theorem foldl_min_lt_iff (xs : List ℚ) : ∀ (x a : ℚ),
    List.foldl min x xs < a ↔ (x < a ∨ ∃ v ∈ xs, v < a) := by
  induction xs with
  | nil => intro x a; simp
  | cons y ys ih =>
      intro x a
      rw [List.foldl_cons, ih (min x y) a, min_lt_iff]
      constructor
      · rintro ((h | h) | ⟨v, hv, hva⟩)
        · exact Or.inl h
        · exact Or.inr ⟨y, by simp, h⟩
        · exact Or.inr ⟨v, by simp [hv], hva⟩
      · rintro (h | ⟨v, hv, hva⟩)
        · exact Or.inl (Or.inl h)
        · rcases List.mem_cons.mp hv with rfl | hv2
          · exact Or.inl (Or.inr hva)
          · exact Or.inr ⟨v, hv2, hva⟩

theorem firstScaleSearch_skips_translations (pre : List CT) (rest : List CT)
    (hpre : ∀ t ∈ pre, t.isScale = false) :
    firstScaleSearch (pre ++ rest) = firstScaleSearch rest := by
  induction pre with
  | nil => rfl
  | cons t pre ih =>
      cases t with
      | scale s => exact absurd (hpre (CT.scale s) (by simp)) (by simp [CT.isScale])
      | translation v =>
          rw [List.cons_append, firstScaleSearch]
          exact ih fun t2 h2 => hpre t2 (List.mem_cons_of_mem _ h2)

theorem firstScaleSearch_min_check (x : ℚ) (xs : List ℚ) (tail : List CT) :
    (firstScaleSearch (CT.scale (x :: xs) :: tail) = .ok (x :: xs)
        ↔ ∀ v ∈ x :: xs, ¬(v < pixelSizeFloor))
    ∧ ((∃ v ∈ x :: xs, v < pixelSizeFloor) →
        firstScaleSearch (CT.scale (x :: xs) :: tail) = .error "ERROR: pixel sizes are too small") := by
  have hmin : List.foldl min x xs < pixelSizeFloor ↔ ∃ v ∈ x :: xs, v < pixelSizeFloor := by
    rw [foldl_min_lt_iff]
    simp
  constructor
  · by_cases hlt : List.foldl min x xs < pixelSizeFloor
    · rw [firstScaleSearch, listMin, exceptBind_ok, if_pos hlt]
      constructor
      · intro h; exact absurd h (by simp)
      · intro hall
        obtain ⟨v, hv, hvlt⟩ := hmin.mp hlt
        exact absurd hvlt (hall v hv)
    · rw [firstScaleSearch, listMin, exceptBind_ok, if_neg hlt, exceptPure]
      simp only [eq_self_iff_true, true_iff]
      intro v hv hvlt
      exact hlt (hmin.mpr ⟨v, hv, hvlt⟩)
  · intro hex
    rw [firstScaleSearch, listMin, exceptBind_ok, if_pos (hmin.mpr hex)]

theorem pixelSizesLoop_ok_min (xi yi : ℕ) (zi : Option ℕ) (dss : List Dataset) :
    ∀ ps, pixelSizesLoop xi yi zi dss = .ok ps →
      ∀ trip ∈ ps, ¬(min trip.1 (min trip.2.1 trip.2.2) < pixelSizeFloor) := by
  induction dss with
  | nil =>
      intro ps hok trip htrip
      rw [pixelSizesLoop] at hok
      obtain rfl : ([] : List (ℚ × ℚ × ℚ)) = ps := by simpa using hok
      simp at htrip
  | cons d rest ih =>
      intro ps hok trip htrip
      rw [pixelSizesLoop] at hok
      cases hst : d.scale_transformation with
      | error e => rw [hst] at hok; simp [exceptBind_err] at hok
      | ok s =>
          rw [hst, exceptBind_ok] at hok
          cases hx : s.get? xi with
          | none => rw [hx] at hok; simp [exceptBind_err] at hok
          | some px =>
              rw [hx] at hok
              simp only [exceptBind_ok, exceptPure] at hok
              cases hy : s.get? yi with
              | none => rw [hy] at hok; simp [exceptBind_err] at hok
              | some py =>
                  rw [hy] at hok
                  simp only [exceptBind_ok, exceptPure] at hok
                  cases zi with
                  | none =>
                      simp only [exceptBind_ok, exceptPure] at hok
                      by_cases hmin : min (1 : ℚ) (min py px) < pixelSizeFloor
                      · rw [if_pos hmin] at hok; simp at hok
                      · rw [if_neg hmin] at hok
                        cases htail : pixelSizesLoop xi yi none rest with
                        | error e => rw [htail] at hok; simp [exceptBind_err] at hok
                        | ok tailps =>
                            rw [htail] at hok
                            simp only [exceptBind_ok, exceptPure] at hok
                            obtain rfl : ((1 : ℚ), py, px) :: tailps = ps := by simpa using hok
                            rcases List.mem_cons.mp htrip with rfl | h2
                            · simpa using hmin
                            · exact ih tailps htail trip h2
                  | some i =>
                      simp only [exceptBind_ok, exceptPure] at hok
                      cases hzi : s.get? i with
                      | none => rw [hzi] at hok; simp [exceptBind_err] at hok
                      | some pz =>
                          rw [hzi] at hok
                          simp only [exceptBind_ok, exceptPure] at hok
                          by_cases hmin : min pz (min py px) < pixelSizeFloor
                          · rw [if_pos hmin] at hok; simp at hok
                          · rw [if_neg hmin] at hok
                            cases htail : pixelSizesLoop xi yi (some i) rest with
                            | error e => rw [htail] at hok; simp [exceptBind_err] at hok
                            | ok tailps =>
                                rw [htail] at hok
                                simp only [exceptBind_ok, exceptPure] at hok
                                obtain rfl : (pz, py, px) :: tailps = ps := by simpa using hok
                                rcases List.mem_cons.mp htrip with rfl | h2
                                · simpa using hmin
                                · exact ih tailps htail trip h2

theorem pixelSizesLoop_head_error (xi yi : ℕ) (zi : Option ℕ) (d : Dataset) (rest : List Dataset)
    (s : List ℚ) (px py pz : ℚ)
    (hst : d.scale_transformation = .ok s)
    (hx : s.get? xi = some px) (hy : s.get? yi = some py)
    (hz : (match zi with | some i => s.get? i | none => some (1 : ℚ)) = some pz)
    (hmin : min pz (min py px) < pixelSizeFloor) :
    pixelSizesLoop xi yi zi (d :: rest) = .error "Pixel sizes are too small" := by
  rw [pixelSizesLoop, hst, exceptBind_ok, hx]
  simp only [exceptBind_ok, exceptPure]
  rw [hy]
  simp only [exceptBind_ok, exceptPure]
  cases zi with
  | none =>
      obtain rfl : (1 : ℚ) = pz := by simpa using hz
      simp only [exceptBind_ok, exceptPure]
      rw [if_pos hmin]
  | some i =>
      have hzi : s.get? i = some pz := by simpa using hz
      simp only [exceptBind_ok, exceptPure]
      rw [hzi]
      simp only [exceptBind_ok, exceptPure]
      rw [if_pos hmin]

/-! ### Claim theorems -/

/-- Claim C1 (code_bug evaluation).  `rescale_datasets` is supposed to
multiply the Y and X scale components (the components at the `y`/`x` axis
positions) by `coarsening_xy ** reference_level` for any axis layout, and
its in-repo caller (`napari_workflows_wrapper.py`, lines 424-431) hands it
CZYX datasets whose first axis is checked to be `"c"` (and passes a
`remove_channel_axis=True` argument the function does not even accept).
On a four-component CZYX scale `[1, 1, 1/2, 1/2]` with factor `2 ** 1` the
function instead multiplies positions 1 and 2 — the Z and Y components —
and silently drops the X component, returning `[1, 2, 1]`. -/
theorem rescale_datasets_channel_axis_bug :
    rescale_datasets [⟨[("path", "0")], [CT.scale [1, 1, 1/2, 1/2]]⟩] 2 1
      = .ok [⟨[("path", "0")], [CT.scale [1, 2, 1]]⟩] := by
  norm_num [rescale_datasets, rescaleCTList, rescaleCT, exceptBind_ok, exceptPure]

/-- Claim C2 (spec-modelled: the `fractal_tasks_core.roi` module is not
among the sources, only its callers).  For every ROI row, coarsening factor
`c ≥ 1` and adjacent pyramid levels `L` and `L+1`, the Z start/end indices
produced by the per-row conversion are identical at the two levels (Z is
never divided by the coarsening factor), while the Y and X index extents at
level `L+1` are approximately `1/c` of the extents at level `L`:
`|c * extent_(L+1) - extent_L| ≤ c + 1`. -/
theorem convert_ROI_adjacent_level_extents
    (row : ROIRow) (L : ℕ) (c : ℤ) (pxz pxy pxx ox oy oz : ℚ) (hc : 1 ≤ c) :
    (convertROIRowToIndices row (L+1) c pxz pxy pxx ox oy oz).start_z
        = (convertROIRowToIndices row L c pxz pxy pxx ox oy oz).start_z
    ∧ (convertROIRowToIndices row (L+1) c pxz pxy pxx ox oy oz).end_z
        = (convertROIRowToIndices row L c pxz pxy pxx ox oy oz).end_z
    ∧ |c * ((convertROIRowToIndices row (L+1) c pxz pxy pxx ox oy oz).end_y
            - (convertROIRowToIndices row (L+1) c pxz pxy pxx ox oy oz).start_y)
        - ((convertROIRowToIndices row L c pxz pxy pxx ox oy oz).end_y
            - (convertROIRowToIndices row L c pxz pxy pxx ox oy oz).start_y)| ≤ c + 1
    ∧ |c * ((convertROIRowToIndices row (L+1) c pxz pxy pxx ox oy oz).end_x
            - (convertROIRowToIndices row (L+1) c pxz pxy pxx ox oy oz).start_x)
        - ((convertROIRowToIndices row L c pxz pxy pxx ox oy oz).end_x
            - (convertROIRowToIndices row L c pxz pxy pxx ox oy oz).start_x)| ≤ c + 1 := by
  refine ⟨rfl, rfl, ?_, ?_⟩
  · exact scaled_extent_bound c L _ _ hc
  · exact scaled_extent_bound c L _ _ hc

theorem convert_ROI_adjacent_level_extents_witness :
    (1 : ℤ) ≤ 2 ∧
    ((convertROIRowToIndices ⟨0, 0, 0, 10, 10, 1⟩ 1 2 1 (13/80) (13/80) 0 0 0).start_z
        = (convertROIRowToIndices ⟨0, 0, 0, 10, 10, 1⟩ 0 2 1 (13/80) (13/80) 0 0 0).start_z
    ∧ (convertROIRowToIndices ⟨0, 0, 0, 10, 10, 1⟩ 1 2 1 (13/80) (13/80) 0 0 0).end_z
        = (convertROIRowToIndices ⟨0, 0, 0, 10, 10, 1⟩ 0 2 1 (13/80) (13/80) 0 0 0).end_z
    ∧ |2 * ((convertROIRowToIndices ⟨0, 0, 0, 10, 10, 1⟩ 1 2 1 (13/80) (13/80) 0 0 0).end_y
            - (convertROIRowToIndices ⟨0, 0, 0, 10, 10, 1⟩ 1 2 1 (13/80) (13/80) 0 0 0).start_y)
        - ((convertROIRowToIndices ⟨0, 0, 0, 10, 10, 1⟩ 0 2 1 (13/80) (13/80) 0 0 0).end_y
            - (convertROIRowToIndices ⟨0, 0, 0, 10, 10, 1⟩ 0 2 1 (13/80) (13/80) 0 0 0).start_y)| ≤ 2 + 1
    ∧ |2 * ((convertROIRowToIndices ⟨0, 0, 0, 10, 10, 1⟩ 1 2 1 (13/80) (13/80) 0 0 0).end_x
            - (convertROIRowToIndices ⟨0, 0, 0, 10, 10, 1⟩ 1 2 1 (13/80) (13/80) 0 0 0).start_x)
        - ((convertROIRowToIndices ⟨0, 0, 0, 10, 10, 1⟩ 0 2 1 (13/80) (13/80) 0 0 0).end_x
            - (convertROIRowToIndices ⟨0, 0, 0, 10, 10, 1⟩ 0 2 1 (13/80) (13/80) 0 0 0).start_x)| ≤ 2 + 1) :=
  ⟨by decide, convert_ROI_adjacent_level_extents ⟨0, 0, 0, 10, 10, 1⟩ 0 2 1 (13/80) (13/80) 0 0 0 (by decide)⟩

/-- Claim C3.  For valid multiscale metadata with at least two levels,
`coarsening_xy` either returns an integer `k` that equals the Python-rounded
X ratio and Y ratio of every consecutive level pair (so it is
level-pair-invariant), or raises — and it raises exactly when no single
integer is the rounded X and Y ratio of every pair, i.e. when the rounded X
and Y ratios differ at some level or the rounded ratio is not constant
across level transitions. -/
theorem coarsening_xy_ratio_characterization
    (m : NgffImageMeta) (p0 p1 : ℚ × ℚ × ℚ) (rest : List (ℚ × ℚ × ℚ))
    (hps : m.pixel_sizes_zyx = .ok (p0 :: p1 :: rest)) :
    (∃ k, m.coarsening_xy = .ok (some k) ∧ pairsOK k p0 (p1 :: rest) = true)
    ∨ ((∃ e, m.coarsening_xy = .error e) ∧ ∀ k, pairsOK k p0 (p1 :: rest) = false) := by
  have hco : m.coarsening_xy = coarseningLoop none p0 (p1 :: rest) := by
    simp [NgffImageMeta.coarsening_xy, hps, exceptBind_ok]
  by_cases hxy : pyRound (p1.2.2 / p0.2.2) = pyRound (p1.2.1 / p0.2.1)
  · have hstep : coarseningLoop none p0 (p1 :: rest)
        = coarseningLoop (some (pyRound (p1.2.2 / p0.2.2))) p1 rest := by
      rw [coarseningLoop, if_neg (not_not_intro hxy)]
    cases hloop : coarseningLoop (some (pyRound (p1.2.2 / p0.2.2))) p1 rest with
    | ok v =>
        have hv := (coarseningLoop_some_ok _ rest p1 v).mp hloop
        left
        refine ⟨pyRound (p1.2.2 / p0.2.2), ?_, ?_⟩
        · rw [hco, hstep, hloop, hv.2]
        · rw [pairsOK, Bool.and_eq_true, Bool.and_eq_true]
          exact ⟨⟨beq_self_eq_true _, beq_iff_eq.mpr hxy.symm⟩, hv.1⟩
    | error e =>
        right
        constructor
        · exact ⟨e, by rw [hco, hstep, hloop]⟩
        · intro k
          by_cases hk : k = pyRound (p1.2.2 / p0.2.2)
          · rw [Bool.eq_false_iff]
            intro htrue
            rw [pairsOK, Bool.and_eq_true, Bool.and_eq_true] at htrue
            rw [hk] at htrue
            have hcontra := (coarseningLoop_some_ok (pyRound (p1.2.2 / p0.2.2)) rest p1
              (some (pyRound (p1.2.2 / p0.2.2)))).mpr ⟨htrue.2, rfl⟩
            rw [hloop] at hcontra
            exact absurd hcontra (by simp)
          · rw [Bool.eq_false_iff]
            intro htrue
            rw [pairsOK, Bool.and_eq_true, Bool.and_eq_true] at htrue
            exact hk (beq_iff_eq.mp htrue.1.1).symm
  · right
    constructor
    · exact ⟨"NotImplementedError: inhomogeneous coarsening in X and Y directions is not supported",
        by rw [hco, coarseningLoop, if_pos hxy]⟩
    · intro k
      rw [Bool.eq_false_iff]
      intro htrue
      rw [pairsOK, Bool.and_eq_true, Bool.and_eq_true] at htrue
      exact hxy ((beq_iff_eq.mp htrue.1.1).trans (beq_iff_eq.mp htrue.1.2).symm)

theorem coarsening_xy_ratio_characterization_witness :
    NgffImageMeta.pixel_sizes_zyx mC3 = .ok [(1, 1/2, 1/2), (1, 1, 1)]
    ∧ ((∃ k, NgffImageMeta.coarsening_xy mC3 = .ok (some k)
          ∧ pairsOK k (1, 1/2, 1/2) [(1, 1, 1)] = true)
      ∨ ((∃ e, NgffImageMeta.coarsening_xy mC3 = .error e)
          ∧ ∀ k, pairsOK k (1, 1/2, 1/2) [(1, 1, 1)] = false)) := by
  have hps : NgffImageMeta.pixel_sizes_zyx mC3 = .ok [(1, 1/2, 1/2), (1, 1, 1)] := by
    simp [mC3, NgffImageMeta.pixel_sizes_zyx, NgffImageMeta.multiscale,
      pixelSizesLoop, Dataset.scale_transformation, pixelSizeFloor, CT.isScale,
      exceptBind_ok, exceptBind_err, exceptPure, List.findIdx?, min_def]
    norm_num
    simp [exceptBind_ok, exceptPure]
  exact ⟨hps, coarsening_xy_ratio_characterization mC3 (1, 1/2, 1/2) (1, 1, 1) [] hps⟩

/-- Claim C4 (spec-modelled: the `fractal_tasks_core.roi` module is not
among the sources, only its callers).  `check_valid_ROI_indices` succeeds
exactly when `end > start` holds on every axis of every tuple, raises
`InvalidROIError` whenever some tuple has `end ≤ start` on some axis, and
in the wrapper's ROI phase this validation runs before the region list is
ever produced, so no array region is read or written after a failure. -/
theorem check_valid_ROI_indices_raises_iff :
    (∀ l : List ROIIndices,
      (check_valid_ROI_indices l = .ok ()
        ↔ ∀ r ∈ l, r.start_z < r.end_z ∧ r.start_y < r.end_y ∧ r.start_x < r.end_x))
    ∧ (∀ l : List ROIIndices,
      (∃ r ∈ l, r.end_z ≤ r.start_z ∨ r.end_y ≤ r.start_y ∨ r.end_x ≤ r.start_x) →
        check_valid_ROI_indices l
          = .error "InvalidROIError: a ROI has end not larger than start on some axis")
    ∧ (∀ (rows : List ROIRow) (level : ℕ) (c : ℤ) (ps : ℚ × ℚ × ℚ),
      (∃ r ∈ convert_ROI_table_to_indices rows level c ps (0, 0, 0),
          r.end_z ≤ r.start_z ∨ r.end_y ≤ r.start_y ∨ r.end_x ≤ r.start_x) →
        roiPhase rows level c ps
          = .error "InvalidROIError: a ROI has end not larger than start on some axis")
    ∧ (∀ (rows : List ROIRow) (level : ℕ) (c : ℤ) (ps : ℚ × ℚ × ℚ),
      (∀ r ∈ convert_ROI_table_to_indices rows level c ps (0, 0, 0),
          r.start_z < r.end_z ∧ r.start_y < r.end_y ∧ r.start_x < r.end_x) →
        roiPhase rows level c ps = .ok (convert_ROI_table_to_indices rows level c ps (0, 0, 0))) := by
  have hvalid : ∀ r : ROIIndices,
      ROIIndices.valid r = true ↔ (r.start_z < r.end_z ∧ r.start_y < r.end_y ∧ r.start_x < r.end_x) := by
    intro r
    simp [ROIIndices.valid, Bool.and_eq_true, and_assoc]
  have hok : ∀ l : List ROIIndices,
      (check_valid_ROI_indices l = .ok ()
        ↔ ∀ r ∈ l, r.start_z < r.end_z ∧ r.start_y < r.end_y ∧ r.start_x < r.end_x) := by
    intro l
    rw [check_valid_ROI_indices]
    by_cases hall : l.all ROIIndices.valid = true
    · rw [if_pos hall]
      simp only [List.all_eq_true, hvalid] at hall
      simpa using hall
    · rw [if_neg hall]
      simp only [List.all_eq_true, hvalid] at hall
      simp [hall]
  have herr : ∀ l : List ROIIndices,
      (∃ r ∈ l, r.end_z ≤ r.start_z ∨ r.end_y ≤ r.start_y ∨ r.end_x ≤ r.start_x) →
        check_valid_ROI_indices l
          = .error "InvalidROIError: a ROI has end not larger than start on some axis" := by
    intro l hbad
    rw [check_valid_ROI_indices, if_neg]
    simp only [List.all_eq_true, hvalid]
    intro hgood
    obtain ⟨r, hr, hcase⟩ := hbad
    obtain ⟨h1, h2, h3⟩ := hgood r hr
    rcases hcase with h | h | h <;> omega
  refine ⟨hok, herr, ?_, ?_⟩
  · intro rows level c ps hbad
    rw [roiPhase, herr _ hbad, exceptBind_err]
  · intro rows level c ps hgood
    rw [roiPhase, (hok _).mpr hgood, exceptBind_ok, exceptPure]

/-- C4 witness -/
theorem check_valid_ROI_indices_raises_iff_witness :
    (∃ r ∈ [(⟨0, 0, 0, 5, 0, 5⟩ : ROIIndices)],
        r.end_z ≤ r.start_z ∨ r.end_y ≤ r.start_y ∨ r.end_x ≤ r.start_x)
    ∧ check_valid_ROI_indices [(⟨0, 0, 0, 5, 0, 5⟩ : ROIIndices)]
        = .error "InvalidROIError: a ROI has end not larger than start on some axis" :=
  ⟨⟨⟨0, 0, 0, 5, 0, 5⟩, by simp, by simp⟩,
    check_valid_ROI_indices_raises_iff.2.1 _ ⟨⟨0, 0, 0, 5, 0, 5⟩, by simp, by simp⟩⟩

/-- Claim C5.  Both metadata consumers reject, before any geometry
computation (independently of the datasets' contents), metadata that
declares more than one multiscale block or carries a multiscale-level
(global) `coordinateTransformations` attribute; with exactly one multiscale
and only per-dataset transformations neither error is raised
(`extract_zyx_pixel_sizes` proceeds to the per-dataset phase, and the
pydantic validator plus the `multiscale` accessor succeed). -/
theorem single_multiscale_and_no_global_CT_enforced :
    (∀ (z : Zattrs) (level : ℕ), z.multiscales.length > 1 →
        extract_zyx_pixel_sizes z level = .error "ERROR: there are multiple multiscales")
    ∧ (∀ (z : Zattrs) (level : ℕ) (m0 : RawMultiscale), z.multiscales = [m0] →
        m0.hasGlobalCT = true →
        extract_zyx_pixel_sizes z level
          = .error "NotImplementedError: global coordinateTransformations at the multiscales level are not currently supported")
    ∧ (∀ (z : Zattrs) (level : ℕ) (m0 : RawMultiscale), z.multiscales = [m0] →
        m0.hasGlobalCT = false →
        extract_zyx_pixel_sizes z level
          = (match m0.datasets.get? level with
              | none => .error "IndexError: no dataset at this level"
              | some ds => firstScaleSearch ds.coordinateTransformations))
    ∧ (∀ m : NgffImageMeta, m.multiscales.length > 1 →
        ∃ e, pixelSizesPipeline m = .error e ∧ coarseningPipeline m = .error e)
    ∧ (∀ (m : NgffImageMeta) (ms : Multiscale), ms ∈ m.multiscales →
        ms.coordinateTransformations.isSome = true →
        pixelSizesPipeline m
            = .error "NotImplementedError: global coordinateTransformations at the multiscales level are not currently supported"
          ∧ coarseningPipeline m
            = .error "NotImplementedError: global coordinateTransformations at the multiscales level are not currently supported")
    ∧ (∀ (m : NgffImageMeta) (ms : Multiscale), m.multiscales = [ms] →
        ms.coordinateTransformations = none →
        m.validateCTs = .ok () ∧ m.multiscale = .ok ms) := by
  refine ⟨?_, ?_, ?_, ?_, ?_, ?_⟩
  · intro z level h
    rw [extract_zyx_pixel_sizes, if_pos h]
  · intro z level m0 hz hg
    simp [extract_zyx_pixel_sizes, hz, hg]
  · intro z level m0 hz hg
    simp [extract_zyx_pixel_sizes, hz, hg]
  · intro m h
    cases hv : m.validateCTs with
    | error e =>
        exact ⟨e, by rw [pixelSizesPipeline, hv, exceptBind_err],
          by rw [coarseningPipeline, hv, exceptBind_err]⟩
    | ok u =>
        have hm : m.multiscale
            = .error "NotImplementedError: only images with one multiscale are supported" := by
          rw [NgffImageMeta.multiscale, if_pos h]
        have hp : m.pixel_sizes_zyx
            = .error "NotImplementedError: only images with one multiscale are supported" := by
          rw [NgffImageMeta.pixel_sizes_zyx, hm, exceptBind_err]
        refine ⟨"NotImplementedError: only images with one multiscale are supported", ?_, ?_⟩
        · rw [pixelSizesPipeline, hv, exceptBind_ok, hp]
        · rw [coarseningPipeline, hv, exceptBind_ok, NgffImageMeta.coarsening_xy, hp, exceptBind_err]
  · intro m ms hmem hsome
    have hv : m.validateCTs
        = .error "NotImplementedError: global coordinateTransformations at the multiscales level are not currently supported" :=
      validateMultiscaleList_error m.multiscales ⟨ms, hmem, hsome⟩
    exact ⟨by rw [pixelSizesPipeline, hv, exceptBind_err],
      by rw [coarseningPipeline, hv, exceptBind_err]⟩
  · intro m ms hz hnone
    constructor
    · exact validateMultiscaleList_ok m.multiscales (by rw [hz]; simpa using hnone)
    · rw [NgffImageMeta.multiscale, hz]
      simp

/-- C5 witness -/
theorem single_multiscale_and_no_global_CT_enforced_witness :
    (Zattrs.mk [⟨false, []⟩, ⟨false, []⟩]).multiscales.length > 1
    ∧ extract_zyx_pixel_sizes ⟨[⟨false, []⟩, ⟨false, []⟩]⟩ 0
        = .error "ERROR: there are multiple multiscales" :=
  ⟨by decide, single_multiscale_and_no_global_CT_enforced.1 ⟨[⟨false, []⟩, ⟨false, []⟩]⟩ 0 (by decide)⟩

/-- Claim C6.  `Dataset.scale_transformation` returns `s` exactly when the
`"scale"`-type transformations of the dataset are precisely `[scale s]`;
it fails when there are zero scale transformations and when there are two
or more; and prepending a `"translation"`-type transformation never changes
the outcome. -/
theorem scale_transformation_unique_or_fails (d : Dataset) :
    (∀ s, d.scale_transformation = .ok s
        ↔ d.coordinateTransformations.filter CT.isScale = [CT.scale s])
    ∧ ((d.coordinateTransformations.filter CT.isScale).length = 0 →
        ∃ e, d.scale_transformation = .error e)
    ∧ (2 ≤ (d.coordinateTransformations.filter CT.isScale).length →
        ∃ e, d.scale_transformation = .error e)
    ∧ (∀ v, Dataset.scale_transformation ⟨d.path, CT.translation v :: d.coordinateTransformations⟩
        = d.scale_transformation) := by
  refine ⟨?_, ?_, ?_, ?_⟩
  · intro s
    rw [Dataset.scale_transformation]
    rcases hl : d.coordinateTransformations.filter CT.isScale with - | ⟨t, l2⟩
    · simp
    · rcases l2 with - | ⟨t2, l3⟩
      · cases t with
        | scale w => simp
        | translation w => simp
      · cases t <;> simp
  · intro h0
    rw [Dataset.scale_transformation]
    rcases hl : d.coordinateTransformations.filter CT.isScale with - | ⟨t, l2⟩
    · exact ⟨_, rfl⟩
    · rw [hl] at h0; simp at h0
  · intro h2
    rw [Dataset.scale_transformation]
    rcases hl : d.coordinateTransformations.filter CT.isScale with - | ⟨t, l2⟩
    · rw [hl] at h2; simp at h2
    · rcases l2 with - | ⟨t2, l3⟩
      · rw [hl] at h2; simp at h2
      · cases t <;> exact ⟨_, rfl⟩
  · intro v
    rw [Dataset.scale_transformation, Dataset.scale_transformation]
    simp [List.filter, CT.isScale]

/-- C6 witness -/
theorem scale_transformation_unique_or_fails_witness :
    Dataset.scale_transformation ⟨"0", [CT.scale [1, 1, 1], CT.translation [0, 0, 0]]⟩
      = .ok [1, 1, 1] :=
  ((scale_transformation_unique_or_fails ⟨"0", [CT.scale [1, 1, 1], CT.translation [0, 0, 0]]⟩).1
    [1, 1, 1]).mpr rfl

/-- Claim C7 counterexample.  The claim says pixel-size extraction raises
whenever any scale component is below `1e-9`; but
`NgffImageMeta.pixel_sizes_zyx` only checks the components at the z/y/x
axis positions, so on a CZYX image whose channel scale component is
`1e-12 < 1e-9` it succeeds instead of raising. -/
theorem pixel_sizes_channel_component_unchecked :
    (1/1000000000000 : ℚ) < pixelSizeFloor
    ∧ NgffImageMeta.pixel_sizes_zyx mC7 = .ok [(1, 1, 1)] := by
  constructor
  · norm_num [pixelSizeFloor]
  · simp [mC7, NgffImageMeta.pixel_sizes_zyx, NgffImageMeta.multiscale,
      pixelSizesLoop, Dataset.scale_transformation, pixelSizeFloor, CT.isScale,
      exceptBind_ok, exceptBind_err, exceptPure, List.findIdx?, min_def]
    norm_num

/-- Claim C7 amended.  The search of `extract_zyx_pixel_sizes` succeeds
exactly when every component of the level scale vector is at least `1e-9`
and raises when some component is below it (the Python `min` runs over the
whole vector); `NgffImageMeta.pixel_sizes_zyx`, by contrast, checks only
the extracted `(z, y, x)` triple: every triple of a successful run is at
least `1e-9`, and a level whose extracted triple has minimum below `1e-9`
raises — components at other positions (channel/time) are not
inspected. -/
theorem pixel_size_floor_check_characterization :
    (∀ (x : ℚ) (xs : List ℚ) (tail : List CT),
      (firstScaleSearch (CT.scale (x :: xs) :: tail) = .ok (x :: xs)
        ↔ ∀ v ∈ x :: xs, ¬(v < pixelSizeFloor))
      ∧ ((∃ v ∈ x :: xs, v < pixelSizeFloor) →
        firstScaleSearch (CT.scale (x :: xs) :: tail) = .error "ERROR: pixel sizes are too small"))
    ∧ (∀ (xi yi : ℕ) (zi : Option ℕ) (dss : List Dataset) (ps : List (ℚ × ℚ × ℚ)),
      pixelSizesLoop xi yi zi dss = .ok ps →
        ∀ trip ∈ ps, ¬(min trip.1 (min trip.2.1 trip.2.2) < pixelSizeFloor))
    ∧ (∀ (xi yi : ℕ) (zi : Option ℕ) (d : Dataset) (rest : List Dataset) (s : List ℚ) (px py pz : ℚ),
      d.scale_transformation = .ok s → s.get? xi = some px → s.get? yi = some py →
      (match zi with | some i => s.get? i | none => some (1 : ℚ)) = some pz →
      min pz (min py px) < pixelSizeFloor →
        pixelSizesLoop xi yi zi (d :: rest) = .error "Pixel sizes are too small") :=
  ⟨fun x xs tail => firstScaleSearch_min_check x xs tail,
   fun xi yi zi dss => pixelSizesLoop_ok_min xi yi zi dss,
   fun xi yi zi d rest s px py pz hst hx hy hz hmin =>
     pixelSizesLoop_head_error xi yi zi d rest s px py pz hst hx hy hz hmin⟩

theorem pixel_size_floor_check_characterization_witness :
    min (1/10000000000 : ℚ) (min 1 1) < pixelSizeFloor
    ∧ pixelSizesLoop 2 1 (some 0) [⟨"0", [CT.scale [1/10000000000, 1, 1]]⟩]
        = .error "Pixel sizes are too small" :=
  ⟨by norm_num [pixelSizeFloor, min_def],
   pixel_size_floor_check_characterization.2.2 2 1 (some 0)
     ⟨"0", [CT.scale [1/10000000000, 1, 1]]⟩ [] [1/10000000000, 1, 1] 1 1 (1/10000000000)
     rfl rfl rfl rfl (by norm_num [pixelSizeFloor, min_def])⟩

/-- Claim C8 counterexample.  At `reference_level = 0` the claim promises
the identity transform on every dataset list, but on a four-component
scale vector `rescale_datasets` rebuilds the scale as a three-element list
and drops the fourth component, so the output differs from the input. -/
theorem rescale_datasets_level_zero_drops_fourth_component :
    rescale_datasets [⟨[("path", "0")], [CT.scale [1, 1, 1/2, 1/2]]⟩] 2 0
        = .ok [⟨[("path", "0")], [CT.scale [1, 1, 1/2]]⟩]
    ∧ ([⟨[("path", "0")], [CT.scale [1, 1, 1/2]]⟩] : List DsDict)
        ≠ [⟨[("path", "0")], [CT.scale [1, 1, 1/2, 1/2]]⟩] := by
  constructor
  · norm_num [rescale_datasets, rescaleCTList, rescaleCT, exceptBind_ok, exceptPure]
  · simp

/-- Claim C8 amended.  For dataset lists whose `"scale"`-type
transformations all have exactly three components (the ZYX layout the
function assumes), `rescale_datasets` with `reference_level = 0` is the
identity transform: every field, scale component and translation is
returned unchanged. -/
theorem rescale_datasets_level_zero_identity (ds : List DsDict) (c : ℤ)
    (h3 : allScalesLen3 ds = true) : rescale_datasets ds c 0 = .ok ds := by
  induction ds with
  | nil => rfl
  | cons d rest ih =>
      rw [allScalesLen3, List.all_cons, Bool.and_eq_true] at h3
      have hctl : rescaleCTList 1 d.coordinateTransformations = .ok d.coordinateTransformations :=
        rescaleCTList_one _ h3.1
      have htail : rescale_datasets rest c 0 = .ok rest := ih h3.2
      simp [rescale_datasets, pow_zero, hctl, htail, exceptBind_ok, exceptPure]

/-- C8 witness -/
theorem rescale_datasets_level_zero_identity_witness :
    allScalesLen3 [⟨[("path", "0")], [CT.scale [1, 1/2, 1/2], CT.translation [0, 0, 0]]⟩] = true
    ∧ rescale_datasets [⟨[("path", "0")], [CT.scale [1, 1/2, 1/2], CT.translation [0, 0, 0]]⟩] 5 0
        = .ok [⟨[("path", "0")], [CT.scale [1, 1/2, 1/2], CT.translation [0, 0, 0]]⟩] :=
  ⟨by decide, rescale_datasets_level_zero_identity _ 5 (by decide)⟩

/-- Claim C9 counterexample.  The claim asserts that applying
`rescale_datasets` twice differs from applying it once whenever
`coarsening_xy ** reference_level` is not `1`; the empty dataset list is a
counterexample: both sides are `ok []` although `2 ** 1` is not `1`. -/
theorem rescale_datasets_twice_empty_counterexample :
    (rescale_datasets ([] : List DsDict) 2 1 >>= fun l => rescale_datasets l 2 1)
        = rescale_datasets ([] : List DsDict) 2 1
    ∧ ((2 : ℤ) : ℚ) ^ (1 : ℕ) ≠ 1 :=
  ⟨rfl, by norm_num⟩

/-- Claim C9 amended.  Applying `rescale_datasets` twice with the same
`(coarsening_xy, reference_level)` equals applying it once with
`reference_level` doubled — the composition is multiplicative, scaling Y
and X by `c ** (2L)` rather than `c ** L` — and the twice-applied result
differs from the once-applied result whenever some dataset carries a scale
transformation whose Y component `b` satisfies
`b * c ** (2L) ≠ b * c ** L` (in particular for any nonzero Y scale when
`c ** L` is neither `0` nor `1`). -/
theorem rescale_datasets_twice_multiplicative :
    (∀ (ds : List DsDict) (c : ℤ) (L : ℕ),
      (rescale_datasets ds c L >>= fun l => rescale_datasets l c L) = rescale_datasets ds c (2 * L))
    ∧ (∀ (d : DsDict) (rest : List DsDict) (c : ℤ) (L : ℕ) (a b c2 : ℚ) (s3 : List ℚ)
        (ts : List CT) (ys : List DsDict),
      d.coordinateTransformations = CT.scale (a :: b :: c2 :: s3) :: ts →
      rescale_datasets (d :: rest) c L = .ok ys →
      b * (c : ℚ) ^ (2 * L) ≠ b * (c : ℚ) ^ L →
      (rescale_datasets (d :: rest) c L >>= fun l => rescale_datasets l c L) ≠ .ok ys) :=
  ⟨fun ds c L => rescale_datasets_compose ds c L,
   fun d rest c L a b c2 s3 ts ys hcts hok hb =>
     rescale_datasets_twice_differs d rest c L a b c2 s3 ts ys hcts hok hb⟩

theorem rescale_datasets_twice_multiplicative_witness :
    rescale_datasets [⟨[("path", "0")], [CT.scale [1, 1, 1]]⟩] 2 1
        = .ok [⟨[("path", "0")], [CT.scale [1, 2, 2]]⟩]
    ∧ (rescale_datasets [⟨[("path", "0")], [CT.scale [1, 1, 1]]⟩] 2 1
        >>= fun l => rescale_datasets l 2 1)
        ≠ .ok [⟨[("path", "0")], [CT.scale [1, 2, 2]]⟩] := by
  have hok : rescale_datasets [⟨[("path", "0")], [CT.scale [1, 1, 1]]⟩] 2 1
      = .ok [⟨[("path", "0")], [CT.scale [1, 2, 2]]⟩] := by
    norm_num [rescale_datasets, rescaleCTList, rescaleCT, exceptBind_ok, exceptPure]
  exact ⟨hok, rescale_datasets_twice_multiplicative.2 ⟨[("path", "0")], [CT.scale [1, 1, 1]]⟩ []
    2 1 1 1 1 [] [] [⟨[("path", "0")], [CT.scale [1, 2, 2]]⟩] rfl hok (by norm_num)⟩

/-- Claim C10.  On valid single-level metadata the `coarsening_xy` loop
never runs, so the method returns the uninitialized accumulator — the
Python `None`, modelled as `none` — despite the declared `int` return
type. -/
theorem coarsening_xy_single_level_none (m : NgffImageMeta) (p : ℚ × ℚ × ℚ)
    (hps : m.pixel_sizes_zyx = .ok [p]) : m.coarsening_xy = .ok none := by
  unfold NgffImageMeta.coarsening_xy
  rw [hps]
  rfl

theorem coarsening_xy_single_level_none_witness :
    NgffImageMeta.pixel_sizes_zyx mC10 = .ok [(1, 1, 1)]
    ∧ NgffImageMeta.coarsening_xy mC10 = .ok none := by
  have hps : NgffImageMeta.pixel_sizes_zyx mC10 = .ok [(1, 1, 1)] := by
    simp [mC10, NgffImageMeta.pixel_sizes_zyx, NgffImageMeta.multiscale,
      pixelSizesLoop, Dataset.scale_transformation, pixelSizeFloor, CT.isScale,
      exceptBind_ok, exceptBind_err, exceptPure, List.findIdx?, min_def]
    norm_num
  exact ⟨hps, coarsening_xy_single_level_none mC10 (1, 1, 1) hps⟩


end Fractal
